import Mathlib

/-!
Shallow embedding of the Maestro flow validation engine
(`validateMaestroFlow` and its helpers) and proofs about it.

The validator parses a Maestro YAML flow, collects command sequences
(the top-level list of each document plus nested `commands:` blocks found
by descending into mapping values), runs per-command and per-sequence
rules, and returns a list of `ValidationResult`s whose messages embed a
1-based line number computed from precomputed line-start offsets.

External collaborators (the `yaml` parser, the Node `path`/`fs` modules
and the `vscode` position types) are modelled at their interface:
parsed documents are passed in as data, and `path`/`fs` are abstracted
as an explicit environment of functions.
-/

namespace Maestro

/-- Model of `vscode.Position` (0-based line and character). -/
structure VsPosition where
  line : Nat
  character : Nat
deriving DecidableEq, Repr

/-- Model of `vscode.Range`; the source field `end` is called `stop` here
because `end` is a Lean keyword. -/
structure VsRange where
  start : VsPosition
  stop : VsPosition
deriving DecidableEq, Repr

/-- Validation level enum: LEVEL 1 -> Error, LEVEL 2 -> Warning. -/
inductive ValidationLevel where
  | error
  | warning
deriving DecidableEq, Repr

/-- Result record returned by the validator (`ValidationResult`). -/
structure ValidationResult where
  level : ValidationLevel
  message : String
  range : VsRange
  command : Option String
  line : Nat
deriving DecidableEq, Repr

/-- A YAML scalar value as the rules observe it: the source only ever asks
`typeof value === "string"` (and trims strings), so all non-string scalars
(numbers, booleans, null) are collapsed into one constructor. -/
inductive YVal where
  | str : String → YVal
  | nonstr : YVal
deriving DecidableEq, Repr

/-- Model of a `yaml` library node (`YAML.Node`): a scalar, sequence or map,
each carrying its source `range` modelled as `[start, valueEnd]` offsets
(`none` when the node has no range or fewer than two entries, the case the
source guards with `node.range && node.range.length >= 2`).  `other` stands
for the remaining node kinds (aliases), for which `isScalar`/`isSeq`/`isMap`
are all false.  Sequence items and map keys/values may be null or undefined
in the library, hence the `Option`s. -/
inductive YNode where
  | scalar : YVal → Option (Nat × Nat) → YNode
  | seq : List (Option YNode) → Option (Nat × Nat) → YNode
  | map : List (Option YNode × Option YNode) → Option (Nat × Nat) → YNode
  | other : Option (Nat × Nat) → YNode

/-- The `range` stored on a node (see `YNode`). -/
def YNode.range : YNode → Option (Nat × Nat)
  | .scalar _ r => r
  | .seq _ r => r
  | .map _ r => r
  | .other r => r

/-- Internal representation of a Maestro command in a sequence
(interface `MaestroCommand` in the source). -/
structure MaestroCommand where
  name : String
  nameNode : Option YNode
  valueNode : Option YNode

/-- Model of `YAML.YAMLParseError` as `errorRangeFromYamlError` inspects it:
`pos` is the first entry of the error's `pos` array when that array is
present and non-empty, `source` is the error's source node when present. -/
structure YamlError where
  message : String
  pos : Option Nat
  source : Option YNode

/-- Model of one parsed YAML document (`YAML.Document`): its parse errors
and its root node (`doc.contents`, null for an empty document). -/
structure YDocument where
  errors : List YamlError
  contents : Option YNode

/-- Context passed to rules (interface `RuleContext` in the source).
`uriScheme`/`uriFsPath` model the two components of `vscode.Uri` the
validator reads. -/
structure RuleContext where
  text : String
  uriScheme : String
  uriFsPath : String
  lineOffsets : List Nat

/-- Abstraction of the Node `path` and `fs` modules used by the
runFlow-existence rule: `dirname`, `isAbsolute`, two-argument `resolve`,
and `existsSync`. -/
structure SysEnv where
  dirname : String → String
  isAbsolute : String → Bool
  resolve : String → String → String
  existsSync : String → Bool

/-- Model of JavaScript `String.prototype.trim`: strip whitespace from
both ends of the string. -/
def strTrim (s : String) : String :=
  ⟨((s.data.dropWhile Char.isWhitespace).reverse.dropWhile
      Char.isWhitespace).reverse⟩

/-- Does `l` start with `pat`?  (Helper for `stringIncludes`.) -/
def listStartsWith : List Char → List Char → Bool
  | _, [] => true
  | [], _ :: _ => false
  | c :: cs, p :: ps => c == p && listStartsWith cs ps

/-- Does `pat` occur as a contiguous segment of `l`? -/
def listContainsSeg : List Char → List Char → Bool
  | [], pat => listStartsWith [] pat
  | c :: cs, pat => listStartsWith (c :: cs) pat || listContainsSeg cs pat

/-- Model of JavaScript `String.prototype.includes`. -/
def stringIncludes (s pat : String) : Bool :=
  listContainsSeg s.data pat.data

/-- Known Maestro commands (`KNOWN_COMMANDS` in the source, a `Set<string>`
modelled as a list with membership lookup). -/
def KNOWN_COMMANDS : List String :=
  ["tapOn", "longPressOn", "assertVisible", "assertNotVisible", "assertTrue",
   "assertFalse", "assertThat", "launchApp", "inputText", "clearInput",
   "eraseText", "scroll", "swipe", "scrollUntilVisible", "scrollToIndex",
   "scrollUntil", "pressKey", "hideKeyboard", "waitForVisible",
   "waitForNotVisible", "waitForAnimationToEnd", "runScript", "runFlow",
   "runCommand", "takeScreenshot", "openLink", "back", "stopApp",
   "copyTextFrom", "pasteText", "extendState", "evalScript", "conditional",
   "repeat"]

/-- Commands treated as navigation or an explicit wait
(`NAV_OR_WAIT_COMMANDS` in the source). -/
def NAV_OR_WAIT_COMMANDS : List String :=
  ["tapOn", "scroll", "swipe", "scrollUntilVisible", "scrollToIndex",
   "scrollUntil", "launchApp", "runFlow", "openLink", "back", "pressKey",
   "waitForVisible", "waitForNotVisible", "waitForAnimationToEnd", "repeat",
   "conditional"]

/-- The offsets `i + 1` of every character position `i` holding a line feed,
in order (helper loop of `computeLineOffsets`; `i` is the offset of the
head of `cs` in the whole text). -/
def lineFeedOffsets : List Char → Nat → List Nat
  | [], _ => []
  | c :: rest, i =>
    if c = '\n' then (i + 1) :: lineFeedOffsets rest (i + 1)
    else lineFeedOffsets rest (i + 1)

/-- Compute line start offsets for fast offset→(line, column) conversion:
offset 0 plus every offset immediately following a `"\n"` (char code 10). -/
def computeLineOffsets (text : String) : List Nat :=
  0 :: lineFeedOffsets text.data 0

/-- The code run after `offsetToPosition`'s binary-search loop exits:
last line index, with `Math.max(0, offset - lastLineStart)` as the column
(Nat subtraction models the `max` with 0). -/
def otpFallback (offset : Nat) (offs : List Nat) : VsPosition :=
  let lastLineIndex := offs.length - 1
  let lastLineStart := offs.getD lastLineIndex 0
  ⟨lastLineIndex, offset - lastLineStart⟩

/-- The binary-search loop of `offsetToPosition`, with an explicit fuel
argument standing for the `while` loop (any fuel ≥ the interval size makes
the fuel case unreachable).  `low`/`high` are the loop variables; the JS
exit on `high = mid - 1 = -1` coincides with the fallback result here
because that state is only reachable when `offset < offs[0]`, in which case
the truncated Nat subtraction loops until the fuel returns the same
fallback the source returns. -/
def otpLoop (offset : Nat) (offs : List Nat) : Nat → Nat → Nat → VsPosition
  | _, _, 0 => otpFallback offset offs
  | low, high, fuel + 1 =>
    if low ≤ high then
      let mid := (low + high) / 2
      let lineStart := offs.getD mid 0
      if offset < lineStart then
        otpLoop offset offs low (mid - 1) fuel
      else if mid + 1 < offs.length ∧ offs.getD (mid + 1) 0 ≤ offset then
        otpLoop offset offs (mid + 1) high fuel
      else
        ⟨mid, offset - lineStart⟩
    else otpFallback offset offs

/-- Convert a character offset into a position using precomputed line
offsets.  The source's initial `offset < 0` early return is vacuous here
because offsets are natural numbers (callers clamp with `Math.max(0, ·)`). -/
def offsetToPosition (offset : Nat) (lineOffsets : List Nat) : VsPosition :=
  otpLoop offset lineOffsets 0 (lineOffsets.length - 1) (lineOffsets.length + 1)

/-- Create a range from a YAML node; falls back to the start of the
document if range information is not available. -/
def rangeFromNode (node : Option YNode) (context : RuleContext) : VsRange :=
  match node with
  | some n =>
    match n.range with
    | some (r0, r1) =>
      let startOffset := min context.text.length r0
      let endOffset := max startOffset (min context.text.length r1)
      ⟨offsetToPosition startOffset context.lineOffsets,
       offsetToPosition endOffset context.lineOffsets⟩
    | none => ⟨⟨0, 0⟩, ⟨0, 0⟩⟩
  | none => ⟨⟨0, 0⟩, ⟨0, 0⟩⟩

/-- Create a `ValidationResult` with a properly formatted message and range. -/
def createResult (context : RuleContext) (level : ValidationLevel)
    (rawMessage : String) (node : Option YNode) (commandName : Option String) :
    ValidationResult :=
  let range := rangeFromNode node context
  let line := range.start.line + 1
  let pre :=
    match commandName with
    | some c => c ++ " at line " ++ toString line ++ ": "
    | none => "Line " ++ toString line ++ ": "
  { level := level
    message := pre ++ rawMessage
    range := range
    line := line
    command := commandName }

/-- Find a value node by key name in a YAML map (first matching pair; a
found pair whose value is null and a missing key both come back `none`,
matching the truthiness checks at every call site). -/
def findMapValueByKey (pairs : List (Option YNode × Option YNode))
    (key : String) : Option YNode :=
  match pairs with
  | [] => none
  | (k, v) :: rest =>
    match k with
    | some (.scalar (.str s) _) =>
      if s = key then v else findMapValueByKey rest key
    | _ => findMapValueByKey rest key

/-- Check if a map has any of the provided keys with a non-empty string
value. -/
def hasAnyStringKey (pairs : List (Option YNode × Option YNode))
    (keys : List String) : Bool :=
  keys.any fun key =>
    match findMapValueByKey pairs key with
    | some (.scalar (.str s) _) => (strTrim s).length > 0
    | _ => false

/-- Extract the file path target from a runFlow value node, if any:
a string scalar, or a map's `flow` key holding a string scalar. -/
def extractRunFlowTargetPath (valueNode : YNode) : Option String :=
  match valueNode with
  | .scalar (.str s) _ => some s
  | .map pairs _ =>
    match findMapValueByKey pairs "flow" with
    | some (.scalar (.str s) _) => some s
    | _ => none
  | _ => none

/-- Extract Maestro commands from a YAML sequence's items
(`extractCommandsFromSequence`): a non-blank string scalar item is a bare
command; a map item contributes its first pair when that pair's key is a
non-blank string scalar; everything else is skipped. -/
def extractCommandsFromSequence (items : List (Option YNode)) :
    List MaestroCommand :=
  items.flatMap fun item =>
    match item with
    | none => []
    | some node =>
      match node with
      | .scalar (.str s) r =>
        if (strTrim s).length > 0 then
          [{ name := s, nameNode := some (.scalar (.str s) r),
             valueNode := none }]
        else []
      | .scalar .nonstr _ => []
      | .map pairs _ =>
        match pairs with
        | [] => []
        | (key, value) :: _ =>
          match key with
          | some (.scalar (.str k) kr) =>
            if (strTrim k).length > 0 then
              [{ name := k, nameNode := some (.scalar (.str k) kr),
                 valueNode := value }]
            else []
          | _ => []
      | _ => []

/-- The commands-block contribution of one map pair in
`collectNestedCommandSequencesFromMap`: when the key is the string
`"commands"` and the value is a sequence, its extracted commands (only if
non-empty). -/
def commandsBlockAt (key value : Option YNode) : List (List MaestroCommand) :=
  match key, value with
  | some (.scalar (.str k) _), some (.seq items _) =>
    if k = "commands" then
      if (extractCommandsFromSequence items).length > 0 then
        [extractCommandsFromSequence items]
      else []
    else []
  | _, _ => []

/-- Recursively collect nested `commands:` sequences under any YAML map
(the source mutates an accumulator; modelled here as the returned list, in
push order: each pair's own commands block, then the blocks found by
recursing into the pair's value when it is a map). -/
def collectNestedCommandSequencesFromMap :
    List (Option YNode × Option YNode) → List (List MaestroCommand)
  | [] => []
  | (key, some (YNode.map inner r)) :: rest =>
    commandsBlockAt key (some (YNode.map inner r)) ++
      collectNestedCommandSequencesFromMap inner ++
      collectNestedCommandSequencesFromMap rest
  | (key, value) :: rest =>
    commandsBlockAt key value ++ collectNestedCommandSequencesFromMap rest

/-- LEVEL 1: tapOn without selector (text, id, accessibilityLabel). -/
def validateTapOnSelector (command : MaestroCommand) (context : RuleContext) :
    List ValidationResult :=
  if command.name = "tapOn" then
    match command.valueNode with
    | none =>
      [createResult context .error
        "tapOn without selector: add `text`, `id` or `accessibilityLabel` so Maestro knows what to tap."
        command.nameNode (some command.name)]
    | some valueNode =>
      match valueNode with
      | .scalar v r =>
        match v with
        | .str s =>
          if (strTrim s).length > 0 then []
          else
            [createResult context .error
              "tapOn expects a non-empty text selector when used as a string. Use `tapOn: \"Login\"` or provide an object with `text`, `id` or `accessibilityLabel`."
              (some (.scalar (.str s) r)) (some command.name)]
        | .nonstr =>
          [createResult context .error
            "tapOn expects a non-empty text selector when used as a string. Use `tapOn: \"Login\"` or provide an object with `text`, `id` or `accessibilityLabel`."
            (some (.scalar .nonstr r)) (some command.name)]
      | .map pairs _ =>
        if hasAnyStringKey pairs ["text", "id", "accessibilityLabel"] then []
        else
          [createResult context .error
            "tapOn without selector: add at least one of `text`, `id` or `accessibilityLabel`."
            command.nameNode (some command.name)]
      | other =>
        [createResult context .error
          "tapOn has an unsupported value. Use a string (treated as `text`) or an object with `text`, `id` or `accessibilityLabel`."
          (some other) (some command.name)]
  else []

/-- LEVEL 1: inputText value is not a string. -/
def validateInputTextValue (command : MaestroCommand)
    (context : RuleContext) : List ValidationResult :=
  if command.name = "inputText" then
    match command.valueNode with
    | none =>
      [createResult context .error
        "inputText requires a text value. Use `inputText: \"your text\"` or an object with a `text` property."
        command.nameNode (some command.name)]
    | some valueNode =>
      match valueNode with
      | .scalar (.str _) _ => []
      | .scalar .nonstr r =>
        [createResult context .error
          "inputText value must be a string. Example: `inputText: \"email@example.com\"`."
          (some (.scalar .nonstr r)) (some command.name)]
      | .map pairs r =>
        match findMapValueByKey pairs "text" with
        | some (.scalar (.str _) _) => []
        | _ =>
          [createResult context .error
            "inputText object must include a string `text` property. Example:\n`inputText:\n  text: \"email@example.com\"`."
            (some (.map pairs r)) (some command.name)]
      | other =>
        [createResult context .error
          "inputText has an unsupported value. Use a string or an object with a `text` property."
          (some other) (some command.name)]
  else []

/-- LEVEL 1: conditional without `commands`. -/
def validateConditionalHasCommands (command : MaestroCommand)
    (context : RuleContext) : List ValidationResult :=
  if command.name = "conditional" then
    match command.valueNode with
    | some (.map pairs _) =>
      match findMapValueByKey pairs "commands" with
      | some (.seq items _) =>
        if items.length = 0 then
          [createResult context .error
            "conditional without `commands`: add a non-empty `commands` list of steps to run when the condition is met."
            command.nameNode (some command.name)]
        else []
      | _ =>
        [createResult context .error
          "conditional without `commands`: add a non-empty `commands` list of steps to run when the condition is met."
          command.nameNode (some command.name)]
    | _ =>
      [createResult context .error
        "conditional must be an object with a `commands` array. Example:\n`conditional:\n  when: ...\n  commands:\n    - tapOn: \"...\"`."
        command.nameNode (some command.name)]
  else []

/-- The resolved path the runFlow-existence rule probes: the target itself
when absolute, otherwise `path.resolve` of the containing document's
directory and the target. -/
def resolvedRunFlowPath (context : RuleContext) (env : SysEnv)
    (targetPath : String) : String :=
  let documentDir := env.dirname context.uriFsPath
  if env.isAbsolute targetPath then targetPath
  else env.resolve documentDir targetPath

/-- LEVEL 1: runFlow referencing a file that does not exist.  Skipped for
non-file URIs, absent values, unextractable targets and dynamic paths
(containing a dollar-brace token).  The source's `if (!targetPath)` guard
is falsy both for an undefined target and for an extracted empty string,
so an extracted `""` path is skipped as well. -/
def validateRunFlowFileExists (command : MaestroCommand)
    (context : RuleContext) (env : SysEnv) : List ValidationResult :=
  if command.name = "runFlow" then
    if context.uriScheme = "file" then
      match command.valueNode with
      | none => []
      | some valueNode =>
        match extractRunFlowTargetPath valueNode with
        | none => []
        | some targetPath =>
          if targetPath = "" then []
          else if stringIncludes targetPath "$\x7b" then []
          else
            if env.existsSync (resolvedRunFlowPath context env targetPath) then []
            else
              [createResult context .error
                ("runFlow references \"" ++ targetPath ++
                  "\" but the file does not exist. Check the path or create the referenced flow file.")
                (some valueNode) (some command.name)]
    else []
  else []

/-- LEVEL 1: invalid / unknown command name. -/
def validateUnknownCommandName (command : MaestroCommand)
    (context : RuleContext) : List ValidationResult :=
  if KNOWN_COMMANDS.contains command.name then []
  else
    [createResult context .error
      ("Unknown Maestro command \"" ++ command.name ++
        "\". Check for typos or replace with a supported command such as \"tapOn\" or \"assertVisible\".")
      command.nameNode (some command.name)]

/-- LEVEL 2: takeScreenshot without a name. -/
def validateTakeScreenshotHasName (command : MaestroCommand)
    (context : RuleContext) : List ValidationResult :=
  if command.name = "takeScreenshot" then
    match command.valueNode with
    | none =>
      [createResult context .warning
        "takeScreenshot without a name. Provide a descriptive name so screenshots are easy to identify, e.g. `takeScreenshot: \"login_screen\"`."
        command.nameNode (some command.name)]
    | some valueNode =>
      match valueNode with
      | .scalar v r =>
        match v with
        | .str s =>
          if (strTrim s).length > 0 then []
          else
            [createResult context .warning
              "takeScreenshot should use a descriptive name string, e.g. `takeScreenshot: \"login_screen\"`."
              (some (.scalar (.str s) r)) (some command.name)]
        | .nonstr =>
          [createResult context .warning
            "takeScreenshot should use a descriptive name string, e.g. `takeScreenshot: \"login_screen\"`."
            (some (.scalar .nonstr r)) (some command.name)]
      | .map pairs r =>
        match findMapValueByKey pairs "name" with
        | some (.scalar (.str s) _) =>
          if (strTrim s).length > 0 then []
          else
            [createResult context .warning
              "takeScreenshot object should include a non-empty `name` so screenshots are easy to identify."
              (some (.map pairs r)) (some command.name)]
        | _ =>
          [createResult context .warning
            "takeScreenshot object should include a non-empty `name` so screenshots are easy to identify."
            (some (.map pairs r)) (some command.name)]
      | other =>
        [createResult context .warning
          "takeScreenshot has an unexpected value. Use a string name or an object with a `name` property."
          (some other) (some command.name)]
  else []

/-- Raw message of the "assertVisible immediately after tapOn" warning. -/
def assertAfterTapOnMsg : String :=
  "assertVisible is used immediately after tapOn without an explicit wait. Insert `waitForVisible` between them to reduce flaky tests."

/-- The loop body of `validateAssertVisibleImmediatelyAfterTapOn` at index
`i` (the source's `for` loop over `0 ≤ i < length - 1`). -/
def adjacencyWarnAt (sequence : List MaestroCommand) (context : RuleContext)
    (i : Nat) : List ValidationResult :=
  match sequence[i]?, sequence[i + 1]? with
  | some current, some next =>
    if current.name = "tapOn" ∧ next.name = "assertVisible" then
      [createResult context .warning assertAfterTapOnMsg
        (next.nameNode.orElse fun _ => current.nameNode) (some next.name)]
    else []
  | _, _ => []

/-- LEVEL 2: assertVisible immediately after tapOn without waitForVisible. -/
def validateAssertVisibleImmediatelyAfterTapOn
    (sequence : List MaestroCommand) (context : RuleContext) :
    List ValidationResult :=
  (List.range (sequence.length - 1)).flatMap (adjacencyWarnAt sequence context)

/-- The indices into `sequence` of the commands the adjacency rule adds to
the `handledAsserts` set.  The source's set holds the command objects by
reference identity; each object occurs at exactly one index of the
sequence array both rules receive, so indices model it faithfully. -/
def handledAssertIndices (sequence : List MaestroCommand) : List Nat :=
  (List.range (sequence.length - 1)).filterMap fun i =>
    match sequence[i]?, sequence[i + 1]? with
    | some current, some next =>
      if current.name = "tapOn" ∧ next.name = "assertVisible" then
        some (i + 1)
      else none
    | _, _ => none

/-- Raw message of the "assertVisible lacks prior navigation/wait"
warning. -/
def assertNoPriorNavMsg : String :=
  "assertVisible is used without a prior navigation or wait in this flow. Consider adding `tapOn`, `launchApp`, `scroll`, or `waitForVisible` before this assertion so it checks a meaningful UI state."

/-- The backward scan of `validateAssertVisibleHasPriorNavigationOrWait`:
does any command at an index `j < i` of the sequence belong to
`NAV_OR_WAIT_COMMANDS`?  (The source's backward `for` loop with early
`break` computes exactly this existence check.) -/
def hasPriorNavOrWait (sequence : List MaestroCommand) (i : Nat) : Bool :=
  (List.range i).any fun j =>
    match sequence[j]? with
    | some prev => NAV_OR_WAIT_COMMANDS.contains prev.name
    | none => false

/-- The loop body of `validateAssertVisibleHasPriorNavigationOrWait` at
index `i` of the sequence. -/
def priorNavWarnAt (sequence : List MaestroCommand) (context : RuleContext)
    (handled : List Nat) (i : Nat) : List ValidationResult :=
  match sequence[i]? with
  | some cmd =>
    if cmd.name = "assertVisible" then
      if handled.contains i then []
      else
        if hasPriorNavOrWait sequence i then []
        else
          [createResult context .warning assertNoPriorNavMsg
            cmd.nameNode (some cmd.name)]
    else []
  | none => []

/-- LEVEL 2: assertVisible used without prior navigation or wait. -/
def validateAssertVisibleHasPriorNavigationOrWait
    (sequence : List MaestroCommand) (context : RuleContext)
    (handled : List Nat) : List ValidationResult :=
  (List.range sequence.length).flatMap (priorNavWarnAt sequence context handled)

/-- LEVEL 2: duplicate sequential actions (same command twice in a row). -/
def validateDuplicateSequentialActions (sequence : List MaestroCommand)
    (context : RuleContext) : List ValidationResult :=
  (List.range (sequence.length - 1)).flatMap fun i =>
    match sequence[i]?, sequence[i + 1]? with
    | some current, some next =>
      if current.name = next.name then
        [createResult context .warning
          ("Duplicate sequential action: \"" ++ next.name ++
            "\" is called twice in a row. Remove one of them or adjust the flow if this is intentional.")
          (next.nameNode.orElse fun _ => current.nameNode) (some next.name)]
      else []
    | _, _ => []

/-- Derive a best-effort range from a YAML error. -/
def errorRangeFromYamlError (err : YamlError) (context : RuleContext) :
    VsRange :=
  match err.pos with
  | some startOffset =>
    let start := offsetToPosition startOffset context.lineOffsets
    ⟨start, start⟩
  | none =>
    match err.source with
    | some source => rangeFromNode (some source) context
    | none => ⟨⟨0, 0⟩, ⟨0, 0⟩⟩

/-- The syntax-error diagnostics the driver pushes for each document's
parse errors, in document order. -/
def parseErrorResults (documents : List YDocument) (context : RuleContext) :
    List ValidationResult :=
  documents.flatMap fun doc =>
    doc.errors.map fun err =>
      let range := errorRangeFromYamlError err context
      let line := range.start.line + 1
      { level := ValidationLevel.error
        message := "Line " ++ toString line ++ ": YAML parse error – " ++ err.message
        range := range
        command := none
        line := line }

/-- The command sequences the driver collects from all documents: the
top-level sequence of each document whose root is a list (when non-empty),
plus the nested `commands:` sequences found by recursing into a mapping
root. -/
def collectCommandSequences (documents : List YDocument) :
    List (List MaestroCommand) :=
  documents.flatMap fun doc =>
    match doc.contents with
    | none => []
    | some root =>
      match root with
      | .seq items _ =>
        let commands := extractCommandsFromSequence items
        if commands.length > 0 then [commands] else []
      | .map pairs _ => collectNestedCommandSequencesFromMap pairs
      | _ => []

/-- The flattened command list (`commandSequences.flat()`) in the driver. -/
def allCommandsOf (documents : List YDocument) : List MaestroCommand :=
  (collectCommandSequences documents).flatMap id

/-- Raw message of the blank-input degenerate error. -/
def emptyFlowMsg : String :=
  "Empty Maestro flow: file contains no commands. Add at least one command, for example `launchApp`."

/-- Raw message of the no-commands degenerate error. -/
def noCommandsMsg : String :=
  "Empty Maestro flow: no commands found after configuration. Add at least one command sequence starting with `- launchApp` or another action."

/-- The per-command rules the driver runs, in source order. -/
def perCommandResults (command : MaestroCommand) (context : RuleContext)
    (env : SysEnv) : List ValidationResult :=
  validateTapOnSelector command context ++
    validateInputTextValue command context ++
    validateConditionalHasCommands command context ++
    validateRunFlowFileExists command context env ++
    validateUnknownCommandName command context ++
    validateTakeScreenshotHasName command context

/-- The per-sequence rules the driver runs, in source order; the fresh
`handledAsserts` set shared by the two assertVisible rules is the
`handledAssertIndices` of the sequence. -/
def perSequenceResults (sequence : List MaestroCommand)
    (context : RuleContext) : List ValidationResult :=
  validateAssertVisibleImmediatelyAfterTapOn sequence context ++
    validateAssertVisibleHasPriorNavigationOrWait sequence context
      (handledAssertIndices sequence) ++
    validateDuplicateSequentialActions sequence context

/-- The `RuleContext` the entry point builds from its arguments. -/
def ruleContextFor (text uriScheme uriFsPath : String) : RuleContext :=
  { text := text
    uriScheme := uriScheme
    uriFsPath := uriFsPath
    lineOffsets := computeLineOffsets text }

/-- Public entry point (`validateMaestroFlow`).  `documents` models the
output of `YAML.parseAllDocuments text` (the external parser), and
`uriScheme`/`uriFsPath`/`env` model the `vscode.Uri` and the Node
`path`/`fs` modules.  The source binds the context, the syntax-error list,
the collected sequences and the flattened command list to locals; here the
corresponding named definitions are applied in place. -/
def validateMaestroFlow (text : String) (documents : List YDocument)
    (uriScheme uriFsPath : String) (env : SysEnv) : List ValidationResult :=
  if strTrim text = "" then
    [createResult (ruleContextFor text uriScheme uriFsPath) .error
      emptyFlowMsg none none]
  else
    if (allCommandsOf documents).length = 0 then
      parseErrorResults documents (ruleContextFor text uriScheme uriFsPath) ++
        [createResult (ruleContextFor text uriScheme uriFsPath) .error
          noCommandsMsg none none]
    else
      parseErrorResults documents (ruleContextFor text uriScheme uriFsPath) ++
        (allCommandsOf documents).flatMap
          (fun c => perCommandResults c
            (ruleContextFor text uriScheme uriFsPath) env) ++
        (collectCommandSequences documents).flatMap
          (fun s => perSequenceResults s
            (ruleContextFor text uriScheme uriFsPath))

/-- The specification's description of a missing tapOn selector: the value
is absent, a scalar that is not a non-blank string, a mapping containing
none of the keys `text`, `id`, `accessibilityLabel` with a non-blank string
value (a mapping's value for a key being its first binding), or any other
shape. -/
def tapOnSelectorMissing (valueNode : Option YNode) : Prop :=
  match valueNode with
  | none => True
  | some (.scalar (.str s) _) => (strTrim s) = ""
  | some (.scalar .nonstr _) => True
  | some (.map pairs _) =>
    ¬ ∃ k ∈ (["text", "id", "accessibilityLabel"] : List String), ∃ s r,
        findMapValueByKey pairs k = some (.scalar (.str s) r) ∧ (strTrim s) ≠ ""
  | some (.seq _ _) => True
  | some (.other _) => True

/-- A `commands:` block reachable from a mapping's pair list through a
chain of mapping values: either one of the pairs directly carries the key
`"commands"` with a sequence value, or a pair's value is a mapping in which
such a block is reachable. -/
inductive CommandsBlockIn :
    List (Option YNode × Option YNode) → List (Option YNode) → Prop where
  | here : ∀ {pairs : List (Option YNode × Option YNode)} (kr vr) (items),
      (some (.scalar (.str "commands") kr), some (.seq items vr)) ∈ pairs →
      CommandsBlockIn pairs items
  | deeper : ∀ {pairs : List (Option YNode × Option YNode)} (key inner r items),
      (key, some (.map inner r)) ∈ pairs →
      CommandsBlockIn inner items →
      CommandsBlockIn pairs items

/-- Concrete environment used by witnesses: no file exists. -/
def envC : SysEnv :=
  ⟨fun _ => "", fun _ => false, fun _ _ => "", fun _ => false⟩

/-- Concrete rule context used by witnesses. -/
def ctx0 : RuleContext :=
  ⟨"x", "file", "/flows/f.maestro.yaml", computeLineOffsets "x"⟩

/-- A concrete tapOn command used by witnesses. -/
def tapCmdW : MaestroCommand :=
  ⟨"tapOn", some (.scalar (.str "tapOn") (some (2, 7))),
    some (.scalar (.str "a") (some (9, 10)))⟩

/-- A concrete assertVisible command used by witnesses. -/
def avCmdW : MaestroCommand :=
  ⟨"assertVisible", some (.scalar (.str "assertVisible") (some (14, 27))),
    some (.scalar (.str "a") (some (29, 30)))⟩

/-- A parsed document whose root is a top-level list holding a single
`conditional` command that carries a nested `commands:` block (the shape of
`- conditional:\n    commands:\n      - tapOn`). -/
def c1doc : YDocument :=
  ⟨[], some (.seq
    [some (.map
      [(some (.scalar (.str "conditional") (some (2, 13))),
        some (.map
          [(some (.scalar (.str "commands") (some (19, 27))),
            some (.seq [some (.scalar (.str "tapOn") (some (37, 42)))]
              (some (35, 42))))]
          (some (19, 42))))]
      (some (2, 42)))]
    (some (0, 42)))⟩

/-- A parsed document whose root is a mapping reaching a nested `commands:`
block through a mapping value (used by the amended-C1 witness). -/
def c1mdoc : YDocument :=
  ⟨[], some (.map
    [(some (.scalar (.str "when") (some (0, 4))),
      some (.map
        [(some (.scalar (.str "commands") (some (8, 16))),
          some (.seq [some (.scalar (.str "tapOn") (some (22, 27)))]
            (some (20, 27))))]
        (some (8, 27))))]
    (some (0, 27)))⟩

/-- The items of the inner `commands:` block of `c1ndoc` (a single bare
`tapOn`). -/
def c1nInnerItems : List (Option YNode) :=
  [some (.scalar (.str "tapOn") (some (53, 58)))]

/-- The single item of `c1ndoc`'s outer `commands:` block: a `conditional`
command that itself carries an inner `commands:` block. -/
def c1nItem : Option YNode :=
  some (.map
    [(some (.scalar (.str "conditional") (some (14, 25))),
      some (.map
        [(some (.scalar (.str "commands") (some (33, 41))),
          some (.seq c1nInnerItems (some (51, 58))))]
        (some (33, 58))))]
    (some (14, 58)))

/-- The root pairs of `c1ndoc`: one `commands:` key whose value is a
sequence holding `c1nItem`. -/
def c1nRootPairs : List (Option YNode × Option YNode) :=
  [(some (.scalar (.str "commands") (some (0, 8))),
    some (.seq [c1nItem] (some (12, 58))))]

/-- A parsed document whose root is a mapping with a `commands:` block
whose single command carries another, inner `commands:` block (the shape
of `commands:\n  - conditional:\n      commands:\n        - tapOn`). -/
def c1ndoc : YDocument :=
  ⟨[], some (.map c1nRootPairs (some (0, 58)))⟩

/-- Model of parsing the non-blank, syntactically invalid text `"["`: one
document carrying one parse error and no contents, hence zero discovered
commands. -/
def c5docs : List YDocument :=
  [⟨[⟨"Unexpected end of flow sequence", some 1, none⟩], none⟩]

/-- Model of parsing a comment-only (but non-blank) document: one document
with no errors and null contents. -/
def emptyRootDocs : List YDocument := [⟨[], none⟩]

/-- Model of parsing `"appId: x"`: a mapping root with no `commands:` key
and no parse errors. -/
def c5okdocs : List YDocument :=
  [⟨[], some (.map
    [(some (.scalar (.str "appId") (some (0, 5))),
      some (.scalar (.str "x") (some (7, 8))))]
    (some (0, 8)))⟩]

/-- The single diagnostic `validateMaestroFlow` returns for non-blank input
with zero discovered commands and no parse errors (used by witnesses). -/
def noCommandsResult : ValidationResult :=
  ⟨.error, "Line 1: " ++ noCommandsMsg, ⟨⟨0, 0⟩, ⟨0, 0⟩⟩, none, 1⟩

/-- Model of parsing `"- tapOn"`: one document whose root is a one-item
top-level list holding the bare scalar command `tapOn`. -/
def tapOnDocs : List YDocument :=
  [⟨[], some (.seq [some (.scalar (.str "tapOn") (some (2, 7)))]
    (some (0, 7)))⟩]

/-- The diagnostic `validateMaestroFlow` returns for `"- tapOn"` (used by
witnesses). -/
def tapOnNoSelResult : ValidationResult :=
  ⟨.error,
    "tapOn at line 1: tapOn without selector: add `text`, `id` or `accessibilityLabel` so Maestro knows what to tap.",
    ⟨⟨0, 2⟩, ⟨0, 7⟩⟩, some "tapOn", 1⟩

/-! ### General helper lemmas -/

theorem string_length_pos_iff {s : String} : 0 < s.length ↔ s ≠ "" := by
  constructor
  · intro h he
    subst he
    simp at h
  · intro h
    rcases Nat.eq_zero_or_pos s.length with h0 | h1
    · exact absurd (String.ext (List.length_eq_zero.mp h0)) h
    · exact h1

theorem hasAnyStringKey_iff (pairs : List (Option YNode × Option YNode))
    (keys : List String) :
    hasAnyStringKey pairs keys = true ↔
      ∃ k ∈ keys, ∃ s r,
        findMapValueByKey pairs k = some (.scalar (.str s) r) ∧
          (strTrim s) ≠ "" := by
  unfold hasAnyStringKey
  rw [List.any_eq_true]
  constructor
  · rintro ⟨k, hk, hcond⟩
    refine ⟨k, hk, ?_⟩
    cases hfind : findMapValueByKey pairs k with
    | none => rw [hfind] at hcond; simp at hcond
    | some n =>
      rw [hfind] at hcond
      cases n with
      | scalar v r =>
        cases v with
        | str s =>
          simp only [decide_eq_true_eq] at hcond
          exact ⟨s, r, rfl, string_length_pos_iff.mp hcond⟩
        | nonstr => simp at hcond
      | seq _ _ => simp at hcond
      | map _ _ => simp at hcond
      | other _ => simp at hcond
  · rintro ⟨k, hk, s, r, hfind, hne⟩
    refine ⟨k, hk, ?_⟩
    rw [hfind]
    simp only [decide_eq_true_eq]
    exact string_length_pos_iff.mpr hne

/-! ### C2: the tapOn selector rule -/

/-- C2: for a command named `tapOn`, the selector rule emits a diagnostic
exactly when the value is absent, a scalar that is not a non-blank string,
a mapping with none of `text`/`id`/`accessibilityLabel` bound to a
non-blank string, or any other shape; every emitted diagnostic is an
Error; and a non-blank string scalar value yields no diagnostic at all. -/
theorem tapOn_selector_rule_characterization (command : MaestroCommand)
    (context : RuleContext) (hname : command.name = "tapOn") :
    ((validateTapOnSelector command context ≠ []) ↔
      tapOnSelectorMissing command.valueNode) ∧
    (∀ r ∈ validateTapOnSelector command context,
      r.level = ValidationLevel.error) ∧
    (∀ s rg, command.valueNode = some (.scalar (.str s) rg) → (strTrim s) ≠ "" →
      validateTapOnSelector command context = []) := by
  obtain ⟨name, nameNode, valueNode⟩ := command
  simp only at hname
  subst hname
  refine ⟨?_, ?_, ?_⟩
  · cases valueNode with
    | none => exact iff_of_true (by simp [validateTapOnSelector]) trivial
    | some node =>
      cases node with
      | scalar v r =>
        cases v with
        | str s =>
          by_cases hs : (strTrim s).length > 0
          · refine iff_of_false (by simp [validateTapOnSelector, hs])
              (string_length_pos_iff.mp hs)
          · refine iff_of_true (by simp [validateTapOnSelector, hs]) ?_
            show strTrim s = ""
            by_contra hne
            exact hs (string_length_pos_iff.mpr hne)
        | nonstr => exact iff_of_true (by simp [validateTapOnSelector]) trivial
      | seq _ _ => exact iff_of_true (by simp [validateTapOnSelector]) trivial
      | map pairs r =>
        by_cases hk : hasAnyStringKey pairs ["text", "id", "accessibilityLabel"]
        · exact iff_of_false (by simp [validateTapOnSelector, hk])
            (fun hm => hm ((hasAnyStringKey_iff pairs _).mp hk))
        · exact iff_of_true (by simp [validateTapOnSelector, hk])
            (fun h => hk ((hasAnyStringKey_iff pairs _).mpr h))
      | other _ => exact iff_of_true (by simp [validateTapOnSelector]) trivial
  · intro r hr
    cases valueNode with
    | none => simp [validateTapOnSelector] at hr; subst hr; rfl
    | some node =>
      cases node with
      | scalar v rg =>
        cases v with
        | str s =>
          by_cases hs : (strTrim s).length > 0
          · simp [validateTapOnSelector, hs] at hr
          · simp [validateTapOnSelector, hs] at hr; subst hr; rfl
        | nonstr => simp [validateTapOnSelector] at hr; subst hr; rfl
      | seq _ _ => simp [validateTapOnSelector] at hr; subst hr; rfl
      | map pairs rg =>
        by_cases hk : hasAnyStringKey pairs ["text", "id", "accessibilityLabel"]
        · simp [validateTapOnSelector, hk] at hr
        · simp [validateTapOnSelector, hk] at hr; subst hr; rfl
      | other _ => simp [validateTapOnSelector] at hr; subst hr; rfl
  · intro s rg hv hs
    subst hv
    simp [validateTapOnSelector, string_length_pos_iff.mpr hs]

/-- Witness for C2 at a concrete input: `tapOn: "a"` (non-blank string
scalar) produces no tapOn-selector diagnostic. -/
theorem tapOn_selector_rule_witness :
    validateTapOnSelector tapCmdW ctx0 = [] :=
  (tapOn_selector_rule_characterization tapCmdW ctx0 rfl).2.2 "a"
    (some (9, 10)) rfl (by decide)

/-! ### C3: every diagnostic's `line` is `range.start.line + 1` -/

theorem lineInv_createResult (context : RuleContext) (level : ValidationLevel)
    (msg : String) (node : Option YNode) (cname : Option String) :
    (createResult context level msg node cname).line =
      (createResult context level msg node cname).range.start.line + 1 := rfl

theorem lineInv_validateTapOnSelector (command : MaestroCommand)
    (context : RuleContext) :
    ∀ r ∈ validateTapOnSelector command context,
      r.line = r.range.start.line + 1 := by
  intro r hr
  unfold validateTapOnSelector at hr
  repeat' split at hr
  all_goals
    first
      | exact absurd hr (List.not_mem_nil r)
      | (rw [List.mem_singleton] at hr; subst hr; rfl)

theorem lineInv_validateInputTextValue (command : MaestroCommand)
    (context : RuleContext) :
    ∀ r ∈ validateInputTextValue command context,
      r.line = r.range.start.line + 1 := by
  intro r hr
  unfold validateInputTextValue at hr
  repeat' split at hr
  all_goals
    first
      | exact absurd hr (List.not_mem_nil r)
      | (rw [List.mem_singleton] at hr; subst hr; rfl)

theorem lineInv_validateConditionalHasCommands (command : MaestroCommand)
    (context : RuleContext) :
    ∀ r ∈ validateConditionalHasCommands command context,
      r.line = r.range.start.line + 1 := by
  intro r hr
  unfold validateConditionalHasCommands at hr
  repeat' split at hr
  all_goals
    first
      | exact absurd hr (List.not_mem_nil r)
      | (rw [List.mem_singleton] at hr; subst hr; rfl)

theorem lineInv_validateRunFlowFileExists (command : MaestroCommand)
    (context : RuleContext) (env : SysEnv) :
    ∀ r ∈ validateRunFlowFileExists command context env,
      r.line = r.range.start.line + 1 := by
  intro r hr
  unfold validateRunFlowFileExists at hr
  repeat' split at hr
  all_goals
    first
      | exact absurd hr (List.not_mem_nil r)
      | (rw [List.mem_singleton] at hr; subst hr; rfl)

theorem lineInv_validateUnknownCommandName (command : MaestroCommand)
    (context : RuleContext) :
    ∀ r ∈ validateUnknownCommandName command context,
      r.line = r.range.start.line + 1 := by
  intro r hr
  unfold validateUnknownCommandName at hr
  repeat' split at hr
  all_goals
    first
      | exact absurd hr (List.not_mem_nil r)
      | (rw [List.mem_singleton] at hr; subst hr; rfl)

theorem lineInv_validateTakeScreenshotHasName (command : MaestroCommand)
    (context : RuleContext) :
    ∀ r ∈ validateTakeScreenshotHasName command context,
      r.line = r.range.start.line + 1 := by
  intro r hr
  unfold validateTakeScreenshotHasName at hr
  repeat' split at hr
  all_goals
    first
      | exact absurd hr (List.not_mem_nil r)
      | (rw [List.mem_singleton] at hr; subst hr; rfl)

theorem lineInv_perCommandResults (command : MaestroCommand)
    (context : RuleContext) (env : SysEnv) :
    ∀ r ∈ perCommandResults command context env,
      r.line = r.range.start.line + 1 := by
  intro r hr
  unfold perCommandResults at hr
  simp only [List.mem_append] at hr
  rcases hr with ((((h | h) | h) | h) | h) | h
  · exact lineInv_validateTapOnSelector _ _ r h
  · exact lineInv_validateInputTextValue _ _ r h
  · exact lineInv_validateConditionalHasCommands _ _ r h
  · exact lineInv_validateRunFlowFileExists _ _ _ r h
  · exact lineInv_validateUnknownCommandName _ _ r h
  · exact lineInv_validateTakeScreenshotHasName _ _ r h

theorem lineInv_adjacencyWarnAt (sequence : List MaestroCommand)
    (context : RuleContext) (i : Nat) :
    ∀ r ∈ adjacencyWarnAt sequence context i,
      r.line = r.range.start.line + 1 := by
  intro r hr
  unfold adjacencyWarnAt at hr
  repeat' split at hr
  all_goals
    first
      | exact absurd hr (List.not_mem_nil r)
      | (rw [List.mem_singleton] at hr; subst hr; rfl)

theorem lineInv_priorNavWarnAt (sequence : List MaestroCommand)
    (context : RuleContext) (handled : List Nat) (i : Nat) :
    ∀ r ∈ priorNavWarnAt sequence context handled i,
      r.line = r.range.start.line + 1 := by
  intro r hr
  unfold priorNavWarnAt at hr
  repeat' split at hr
  all_goals
    first
      | exact absurd hr (List.not_mem_nil r)
      | (rw [List.mem_singleton] at hr; subst hr; rfl)

theorem lineInv_validateDuplicateSequentialActions
    (sequence : List MaestroCommand) (context : RuleContext) :
    ∀ r ∈ validateDuplicateSequentialActions sequence context,
      r.line = r.range.start.line + 1 := by
  intro r hr
  unfold validateDuplicateSequentialActions at hr
  rw [List.mem_flatMap] at hr
  obtain ⟨i, _, hr⟩ := hr
  repeat' split at hr
  all_goals
    first
      | exact absurd hr (List.not_mem_nil r)
      | (rw [List.mem_singleton] at hr; subst hr; rfl)

theorem lineInv_perSequenceResults (sequence : List MaestroCommand)
    (context : RuleContext) :
    ∀ r ∈ perSequenceResults sequence context,
      r.line = r.range.start.line + 1 := by
  intro r hr
  unfold perSequenceResults at hr
  simp only [List.mem_append] at hr
  rcases hr with (h | h) | h
  · unfold validateAssertVisibleImmediatelyAfterTapOn at h
    rw [List.mem_flatMap] at h
    obtain ⟨i, _, h⟩ := h
    exact lineInv_adjacencyWarnAt _ _ _ r h
  · unfold validateAssertVisibleHasPriorNavigationOrWait at h
    rw [List.mem_flatMap] at h
    obtain ⟨i, _, h⟩ := h
    exact lineInv_priorNavWarnAt _ _ _ _ r h
  · exact lineInv_validateDuplicateSequentialActions _ _ r h

theorem lineInv_parseErrorResults (documents : List YDocument)
    (context : RuleContext) :
    ∀ r ∈ parseErrorResults documents context,
      r.line = r.range.start.line + 1 := by
  intro r hr
  unfold parseErrorResults at hr
  rw [List.mem_flatMap] at hr
  obtain ⟨doc, _, hr⟩ := hr
  rw [List.mem_map] at hr
  obtain ⟨err, _, hr⟩ := hr
  subst hr
  rfl

/-- C3: every diagnostic returned by the validation entry point — syntax
errors, per-command findings, per-sequence findings and the two
degenerate-input errors — has its `line` field equal to its range's
0-based start line plus 1. -/
theorem validate_line_field_invariant (text : String)
    (documents : List YDocument) (uriScheme uriFsPath : String)
    (env : SysEnv) :
    ∀ r ∈ validateMaestroFlow text documents uriScheme uriFsPath env,
      r.line = r.range.start.line + 1 := by
  intro r hr
  unfold validateMaestroFlow at hr
  split at hr
  · rw [List.mem_singleton] at hr
    subst hr
    rfl
  · split at hr
    · rw [List.mem_append] at hr
      rcases hr with h | h
      · exact lineInv_parseErrorResults _ _ r h
      · rw [List.mem_singleton] at h
        subst h
        rfl
    · simp only [List.mem_append] at hr
      rcases hr with (h | h) | h
      · exact lineInv_parseErrorResults _ _ r h
      · rw [List.mem_flatMap] at h
        obtain ⟨c, _, hc⟩ := h
        exact lineInv_perCommandResults _ _ _ r hc
      · rw [List.mem_flatMap] at h
        obtain ⟨s, _, hs⟩ := h
        exact lineInv_perSequenceResults _ _ r hs

/-- Witness for C3 at a concrete input: the diagnostic produced for
`"- tapOn"` satisfies the line invariant. -/
theorem validate_line_field_invariant_witness :
    tapOnNoSelResult ∈ validateMaestroFlow "- tapOn" tapOnDocs "file"
        "/flows/f.maestro.yaml" envC ∧
      tapOnNoSelResult.line = tapOnNoSelResult.range.start.line + 1 :=
  ⟨by decide,
    validate_line_field_invariant "- tapOn" tapOnDocs "file"
      "/flows/f.maestro.yaml" envC tapOnNoSelResult (by decide)⟩

/-! ### C4: blank input yields exactly one Error at line 1 -/

/-- C4: for blank or whitespace-only input the entry point returns exactly
the single empty-flow Error diagnostic at line 1; no parsing happens and
no other rule runs. -/
theorem validate_blank_input (text : String) (documents : List YDocument)
    (uriScheme uriFsPath : String) (env : SysEnv)
    (hblank : strTrim text = "") :
    validateMaestroFlow text documents uriScheme uriFsPath env =
      [{ level := .error, message := "Line 1: " ++ emptyFlowMsg,
         range := ⟨⟨0, 0⟩, ⟨0, 0⟩⟩, command := none, line := 1 }] := by
  unfold validateMaestroFlow
  rw [if_pos hblank]
  with_unfolding_all rfl

/-- Witness for C4 at the concrete whitespace-only input `" \n "`. -/
theorem validate_blank_input_witness :
    validateMaestroFlow " \n " [] "file" "/flows/f.maestro.yaml" envC =
      [{ level := .error, message := "Line 1: " ++ emptyFlowMsg,
         range := ⟨⟨0, 0⟩, ⟨0, 0⟩⟩, command := none, line := 1 }] :=
  validate_blank_input " \n " [] "file" "/flows/f.maestro.yaml" envC
    (by decide)

/-! ### C5: non-blank input with zero discovered commands -/

/-- C5 counterexample: for the non-blank input `"["` the parser reports a
syntax error and discovers no commands, and the entry point returns TWO
diagnostics (the syntax error followed by the no-commands error) — not
exactly one as the claim states. -/
theorem validate_no_commands_counterexample :
    strTrim "[" ≠ "" ∧ (allCommandsOf c5docs).length = 0 ∧
      (validateMaestroFlow "[" c5docs "file" "/flows/f.maestro.yaml"
        envC).length = 2 :=
  ⟨by decide, by decide, by decide⟩

/-- C5 amended: for non-blank input whose parsing discovers zero commands,
the entry point returns the syntax-error diagnostics followed by exactly
one additional Error diagnostic whose message differs from the blank-input
message, and no per-command or per-sequence rule runs; when parsing
produced no syntax errors this is exactly one diagnostic in total. -/
theorem validate_no_commands_amended (text : String)
    (documents : List YDocument) (uriScheme uriFsPath : String)
    (env : SysEnv) (hnb : strTrim text ≠ "")
    (hzero : (allCommandsOf documents).length = 0) :
    validateMaestroFlow text documents uriScheme uriFsPath env =
      parseErrorResults documents (ruleContextFor text uriScheme uriFsPath) ++
        [{ level := .error, message := "Line 1: " ++ noCommandsMsg,
           range := ⟨⟨0, 0⟩, ⟨0, 0⟩⟩, command := none, line := 1 }] ∧
    ("Line 1: " ++ noCommandsMsg) ≠ ("Line 1: " ++ emptyFlowMsg) := by
  constructor
  · unfold validateMaestroFlow
    rw [if_neg hnb, if_pos hzero]
    with_unfolding_all rfl
  · decide

/-- Witness for the amended C5 at a concrete comment-only input. -/
theorem validate_no_commands_amended_witness :
    validateMaestroFlow "# note" emptyRootDocs "file" "/flows/f.maestro.yaml"
        envC =
      parseErrorResults emptyRootDocs
          (ruleContextFor "# note" "file" "/flows/f.maestro.yaml") ++
        [{ level := .error, message := "Line 1: " ++ noCommandsMsg,
           range := ⟨⟨0, 0⟩, ⟨0, 0⟩⟩, command := none, line := 1 }] :=
  (validate_no_commands_amended "# note" emptyRootDocs "file"
    "/flows/f.maestro.yaml" envC (by decide) (by decide)).1

/-! ### C9: determinism of the entry point -/

/-- C9: the entry point is a pure function of the input text, the parsed
documents, the URI components and the file-system snapshot: two calls with
identical arguments return identical diagnostic lists, element for
element.  In this embedding all state the source reads (the parse result
and the `fs`/`path` modules) is an explicit argument, so purity holds
definitionally — the embedding has no hidden mutable state, mirroring the
source, which touches no module-level mutable variable. -/
theorem validate_deterministic (text : String) (documents : List YDocument)
    (uriScheme uriFsPath : String) (env : SysEnv) :
    validateMaestroFlow text documents uriScheme uriFsPath env =
      validateMaestroFlow text documents uriScheme uriFsPath env := rfl

/-! ### C10: the runFlow target-existence rule -/

/-- C10: for a `runFlow` command with a concrete on-disk file location, the
existence rule emits nothing when the value is absent, when no path can be
extracted, when the extracted path is the empty string (the source's falsy
guard), or when the extracted path contains a dollar-brace token; it emits
a diagnostic exactly when an extracted, non-empty, non-dynamic path's
resolved target does not exist, and every emitted diagnostic is an
Error. -/
theorem runFlow_existence_rule_characterization (command : MaestroCommand)
    (context : RuleContext) (env : SysEnv)
    (hname : command.name = "runFlow")
    (hscheme : context.uriScheme = "file") :
    (command.valueNode = none →
      validateRunFlowFileExists command context env = []) ∧
    (∀ v, command.valueNode = some v → extractRunFlowTargetPath v = none →
      validateRunFlowFileExists command context env = []) ∧
    (∀ v, command.valueNode = some v →
      extractRunFlowTargetPath v = some "" →
      validateRunFlowFileExists command context env = []) ∧
    (∀ v p, command.valueNode = some v →
      extractRunFlowTargetPath v = some p →
      stringIncludes p "$\x7b" = true →
      validateRunFlowFileExists command context env = []) ∧
    (validateRunFlowFileExists command context env ≠ [] ↔
      ∃ v p, command.valueNode = some v ∧
        extractRunFlowTargetPath v = some p ∧ p ≠ "" ∧
        stringIncludes p "$\x7b" = false ∧
        env.existsSync (resolvedRunFlowPath context env p) = false) ∧
    (∀ r ∈ validateRunFlowFileExists command context env,
      r.level = ValidationLevel.error) := by
  obtain ⟨name, nameNode, valueNode⟩ := command
  simp only at hname
  subst hname
  refine ⟨?_, ?_, ?_, ?_, ?_, ?_⟩
  · intro hv
    subst hv
    simp [validateRunFlowFileExists, hscheme]
  · intro v hv hex
    subst hv
    simp [validateRunFlowFileExists, hscheme, hex]
  · intro v hv hex
    subst hv
    simp [validateRunFlowFileExists, hscheme, hex]
  · intro v p hv hex hdyn
    subst hv
    by_cases hemp : p = ""
    · subst hemp
      simp [validateRunFlowFileExists, hscheme, hex]
    · simp [validateRunFlowFileExists, hscheme, hex, hemp, hdyn]
  · cases valueNode with
    | none => simp [validateRunFlowFileExists, hscheme]
    | some v =>
      cases hex : extractRunFlowTargetPath v with
      | none => simp [validateRunFlowFileExists, hscheme, hex]
      | some p =>
        by_cases hemp : p = ""
        · subst hemp
          simp [validateRunFlowFileExists, hscheme, hex]
        · by_cases hdyn : stringIncludes p "$\x7b"
          · simp [validateRunFlowFileExists, hscheme, hex, hemp, hdyn]
          · by_cases hfs : env.existsSync (resolvedRunFlowPath context env p)
            · simp [validateRunFlowFileExists, hscheme, hex, hemp, hdyn, hfs]
            · simp [validateRunFlowFileExists, hscheme, hex, hemp, hdyn, hfs]
  · intro r hr
    unfold validateRunFlowFileExists at hr
    repeat' split at hr
    all_goals
      first
        | exact absurd hr (List.not_mem_nil r)
        | (rw [List.mem_singleton] at hr; subst hr; rfl)

/-- Witness for C10: a `runFlow` command with no value emits nothing even
with a concrete file location. -/
theorem runFlow_existence_rule_witness :
    validateRunFlowFileExists ⟨"runFlow", none, none⟩ ctx0 envC = [] :=
  (runFlow_existence_rule_characterization ⟨"runFlow", none, none⟩ ctx0
    envC rfl rfl).1 rfl

/-! ### C6 and C7: the two assertVisible sequence rules -/

theorem list_any_congr {α : Type} {f g : α → Bool} :
    ∀ (l : List α), (∀ a ∈ l, f a = g a) → l.any f = l.any g
  | [], _ => rfl
  | a :: l, h => by
    simp only [List.any_cons]
    rw [h a (List.mem_cons_self a l),
      list_any_congr l (fun b hb => h b (List.mem_cons_of_mem a hb))]

theorem hasPriorNavOrWait_iff (sequence : List MaestroCommand) (i : Nat) :
    hasPriorNavOrWait sequence i = true ↔
      ∃ j, j < i ∧ ∃ prev, sequence[j]? = some prev ∧
        prev.name ∈ NAV_OR_WAIT_COMMANDS := by
  unfold hasPriorNavOrWait
  rw [List.any_eq_true]
  constructor
  · rintro ⟨j, hj, hcond⟩
    rw [List.mem_range] at hj
    refine ⟨j, hj, ?_⟩
    cases hsj : sequence[j]? with
    | none => rw [hsj] at hcond; simp at hcond
    | some prev =>
      rw [hsj] at hcond
      exact ⟨prev, rfl, List.elem_iff.mp hcond⟩
  · rintro ⟨j, hj, prev, hsj, hmem⟩
    refine ⟨j, List.mem_range.mpr hj, ?_⟩
    rw [hsj]
    exact List.elem_iff.mpr hmem

theorem hasPriorNavOrWait_congr {s t : List MaestroCommand} (i : Nat)
    (h : ∀ j, j < i → s[j]? = t[j]?) :
    hasPriorNavOrWait s i = hasPriorNavOrWait t i := by
  unfold hasPriorNavOrWait
  refine list_any_congr (List.range i) ?_
  intro j hj
  rw [List.mem_range] at hj
  rw [h j hj]

/-- C6: for every adjacent `tapOn`/`assertVisible` pair at positions
`i`/`i + 1` of a sequence, the adjacency rule's loop body at `i` emits
exactly one Warning (whose raw message mentions "immediately after
tapOn") attached to the `assertVisible` occurrence, that occurrence's
index is added to the handled set, and the lacks-prior-navigation rule's
loop body at `i + 1` emits nothing.  Loop bodies at distinct indices
attach to distinct occurrences, so no other adjacency warning targets
this occurrence. -/
theorem assertVisible_after_tapOn_adjacency (sequence : List MaestroCommand)
    (context : RuleContext) (i : Nat) (current next : MaestroCommand)
    (hc : sequence[i]? = some current) (hn : sequence[i + 1]? = some next)
    (hcn : current.name = "tapOn") (hnn : next.name = "assertVisible") :
    adjacencyWarnAt sequence context i =
      [createResult context .warning assertAfterTapOnMsg
        (next.nameNode.orElse fun _ => current.nameNode) (some next.name)] ∧
    (∀ r ∈ adjacencyWarnAt sequence context i,
      r.level = ValidationLevel.warning) ∧
    stringIncludes assertAfterTapOnMsg "immediately after tapOn" = true ∧
    (i + 1) ∈ handledAssertIndices sequence ∧
    priorNavWarnAt sequence context (handledAssertIndices sequence)
      (i + 1) = [] := by
  have h1 : adjacencyWarnAt sequence context i =
      [createResult context .warning assertAfterTapOnMsg
        (next.nameNode.orElse fun _ => current.nameNode) (some next.name)] := by
    unfold adjacencyWarnAt
    rw [hc, hn]
    simp only [if_pos (And.intro hcn hnn)]
  have hmem : (i + 1) ∈ handledAssertIndices sequence := by
    unfold handledAssertIndices
    rw [List.mem_filterMap]
    refine ⟨i, ?_, ?_⟩
    · rw [List.mem_range]
      rcases List.getElem?_eq_some_iff.mp hn with ⟨hlt, _⟩
      omega
    · rw [hc, hn]
      simp only [if_pos (And.intro hcn hnn)]
  refine ⟨h1, ?_, by decide, hmem, ?_⟩
  · intro r hr
    rw [h1, List.mem_singleton] at hr
    subst hr
    rfl
  · simp [priorNavWarnAt, hn, hnn, hmem]

/-- Witness for C6 at the concrete two-command sequence
`[tapOn "a", assertVisible "a"]`: the lacks-prior-navigation rule emits
nothing at the handled `assertVisible` occurrence. -/
theorem assertVisible_after_tapOn_adjacency_witness :
    priorNavWarnAt [tapCmdW, avCmdW] ctx0
      (handledAssertIndices [tapCmdW, avCmdW]) 1 = [] :=
  (assertVisible_after_tapOn_adjacency [tapCmdW, avCmdW] ctx0 0
    tapCmdW avCmdW rfl rfl rfl rfl).2.2.2.2

/-- C7: for an `assertVisible` occurrence at index `i` that the adjacency
rule did not mark handled, the lacks-prior-navigation rule's loop body at
`i` emits a diagnostic exactly when no command at an earlier index of the
same sequence has a name in `NAV_OR_WAIT_COMMANDS`; every emitted
diagnostic is a Warning; and the rule's output is unchanged by whatever
follows position `i` in the sequence — in particular it never consults
commands outside the prefix of this sequence it scans. -/
theorem assertVisible_prior_nav_rule (sequence : List MaestroCommand)
    (context : RuleContext) (i : Nat) (cmd : MaestroCommand)
    (hc : sequence[i]? = some cmd) (hname : cmd.name = "assertVisible")
    (hnh : i ∉ handledAssertIndices sequence) :
    (priorNavWarnAt sequence context (handledAssertIndices sequence) i ≠ []
        ↔ ¬ ∃ j, j < i ∧ ∃ prev, sequence[j]? = some prev ∧
            prev.name ∈ NAV_OR_WAIT_COMMANDS) ∧
    (∀ r ∈ priorNavWarnAt sequence context (handledAssertIndices sequence) i,
      r.level = ValidationLevel.warning) ∧
    (∀ tail, priorNavWarnAt (sequence.take (i + 1) ++ tail) context
        (handledAssertIndices sequence) i =
      priorNavWarnAt sequence context (handledAssertIndices sequence) i) := by
  have hcont : (handledAssertIndices sequence).contains i = false := by
    cases hb : (handledAssertIndices sequence).contains i with
    | false => rfl
    | true => exact absurd (List.elem_iff.mp hb) hnh
  refine ⟨?_, ?_, ?_⟩
  · by_cases hnav : hasPriorNavOrWait sequence i
    · refine iff_of_false
        (fun h => h (by simp [priorNavWarnAt, hc, hname, hnh, hnav]))
        (not_not_intro ((hasPriorNavOrWait_iff sequence i).mp hnav))
    · refine iff_of_true
        (by simp [priorNavWarnAt, hc, hname, hnh, hnav])
        (fun hex => hnav ((hasPriorNavOrWait_iff sequence i).mpr hex))
  · intro r hr
    unfold priorNavWarnAt at hr
    repeat' split at hr
    all_goals
      first
        | exact absurd hr (List.not_mem_nil r)
        | (rw [List.mem_singleton] at hr; subst hr; rfl)
  · intro tail
    have hi : i + 1 ≤ sequence.length := by
      rcases List.getElem?_eq_some_iff.mp hc with ⟨hlt, _⟩
      omega
    have hget : ∀ j, j < i + 1 →
        (sequence.take (i + 1) ++ tail)[j]? = sequence[j]? := by
      intro j hj
      rw [List.getElem?_append, List.length_take]
      rw [if_pos (by omega : j < min (i + 1) sequence.length)]
      rw [List.getElem?_take, if_pos hj]
    unfold priorNavWarnAt
    rw [hget i (by omega),
      hasPriorNavOrWait_congr i (fun j hj => hget j (by omega))]

/-- Witness for C7 at the concrete one-command sequence
`[assertVisible "a"]`: with no prior command at all, the rule fires. -/
theorem assertVisible_prior_nav_rule_witness :
    priorNavWarnAt [avCmdW] ctx0 (handledAssertIndices [avCmdW]) 0 ≠ [] :=
  ((assertVisible_prior_nav_rule [avCmdW] ctx0 0 avCmdW rfl rfl
      (by decide)).1).mpr
    (by rintro ⟨j, hj, -⟩; omega)

/-! ### C1: discovery of nested `commands:` sequences -/

theorem collectNested_cons (key value : Option YNode)
    (rest : List (Option YNode × Option YNode)) :
    collectNestedCommandSequencesFromMap ((key, value) :: rest) =
      commandsBlockAt key value ++
        (match value with
         | some (.map inner _) => collectNestedCommandSequencesFromMap inner
         | _ => []) ++
        collectNestedCommandSequencesFromMap rest := by
  cases value with
  | none => simp [collectNestedCommandSequencesFromMap]
  | some n =>
    cases n with
    | scalar v r => simp [collectNestedCommandSequencesFromMap]
    | seq items r => simp [collectNestedCommandSequencesFromMap]
    | map inner r => simp [collectNestedCommandSequencesFromMap]
    | other r => simp [collectNestedCommandSequencesFromMap]

theorem commandsBlock_mem_collectNested :
    ∀ (pairs : List (Option YNode × Option YNode))
      (key value : Option YNode) (x : List MaestroCommand),
      (key, value) ∈ pairs → x ∈ commandsBlockAt key value →
      x ∈ collectNestedCommandSequencesFromMap pairs := by
  intro pairs
  induction pairs with
  | nil => intro key value x h _; simp at h
  | cons hd rest ih =>
    intro key value x hmem hx
    obtain ⟨k0, v0⟩ := hd
    rw [collectNested_cons]
    rcases List.mem_cons.mp hmem with heq | htail
    · injection heq with h1 h2
      subst h1
      subst h2
      exact List.mem_append_left _ (List.mem_append_left _ hx)
    · exact List.mem_append_right _ (ih key value x htail hx)

theorem inner_mem_collectNested :
    ∀ (pairs : List (Option YNode × Option YNode)) (key : Option YNode)
      (inner : List (Option YNode × Option YNode)) (r : Option (Nat × Nat))
      (x : List MaestroCommand),
      (key, some (.map inner r)) ∈ pairs →
      x ∈ collectNestedCommandSequencesFromMap inner →
      x ∈ collectNestedCommandSequencesFromMap pairs := by
  intro pairs
  induction pairs with
  | nil => intro key inner r x h _; simp at h
  | cons hd rest ih =>
    intro key inner r x hmem hx
    obtain ⟨k0, v0⟩ := hd
    rw [collectNested_cons]
    rcases List.mem_cons.mp hmem with heq | htail
    · injection heq with h1 h2
      subst h1
      subst h2
      exact List.mem_append_left _ (List.mem_append_right _ hx)
    · exact List.mem_append_right _ (ih key inner r x htail hx)

theorem commandsBlockIn_collected
    {pairs : List (Option YNode × Option YNode)}
    {items : List (Option YNode)} (h : CommandsBlockIn pairs items) :
    extractCommandsFromSequence items ≠ [] →
    extractCommandsFromSequence items ∈
      collectNestedCommandSequencesFromMap pairs := by
  induction h with
  | here kr vr items hmem =>
    intro hne
    refine commandsBlock_mem_collectNested _ _ _ _ hmem ?_
    simp only [commandsBlockAt]
    rw [if_pos trivial, if_pos (List.length_pos.mpr hne)]
    exact List.mem_singleton.mpr rfl
  | deeper key inner r items hmem hin ih =>
    intro hne
    exact inner_mem_collectNested _ _ _ _ _ hmem (ih hne)

/-- A pair prepended to a mapping's pair list preserves reachability of
every `commands:` block. -/
theorem commandsBlockIn_cons (p : Option YNode × Option YNode)
    {rest : List (Option YNode × Option YNode)}
    {items : List (Option YNode)} (h : CommandsBlockIn rest items) :
    CommandsBlockIn (p :: rest) items := by
  cases h with
  | here kr vr items hmem =>
    exact .here kr vr items (List.mem_cons_of_mem p hmem)
  | deeper key inner r items hmem hin =>
    exact .deeper key inner r items (List.mem_cons_of_mem p hmem) hin

/-- Inversion for `commandsBlockAt`: a contributed sequence comes from a
`"commands"` string key with a sequence value whose non-empty extraction
it is. -/
theorem mem_commandsBlockAt :
    ∀ (key value : Option YNode) (x : List MaestroCommand),
      x ∈ commandsBlockAt key value →
      ∃ kr items vr, key = some (.scalar (.str "commands") kr) ∧
        value = some (.seq items vr) ∧
        x = extractCommandsFromSequence items ∧ x ≠ [] := by
  intro key value x hx
  cases key with
  | none => exact absurd hx (List.not_mem_nil x)
  | some kn =>
    cases kn with
    | scalar v kr =>
      cases v with
      | nonstr => exact absurd hx (List.not_mem_nil x)
      | str k =>
        cases value with
        | none => exact absurd hx (List.not_mem_nil x)
        | some vn =>
          cases vn with
          | scalar _ _ => exact absurd hx (List.not_mem_nil x)
          | map _ _ => exact absurd hx (List.not_mem_nil x)
          | other _ => exact absurd hx (List.not_mem_nil x)
          | seq items vr =>
            simp only [commandsBlockAt] at hx
            by_cases hk : k = "commands"
            · rw [if_pos hk] at hx
              by_cases hlen : (extractCommandsFromSequence items).length > 0
              · rw [if_pos hlen, List.mem_singleton] at hx
                subst hk
                refine ⟨kr, items, vr, rfl, rfl, hx, ?_⟩
                rw [hx]
                exact List.length_pos.mp hlen
              · rw [if_neg hlen] at hx
                exact absurd hx (List.not_mem_nil x)
            · rw [if_neg hk] at hx
              exact absurd hx (List.not_mem_nil x)
    | seq _ _ => exact absurd hx (List.not_mem_nil x)
    | map _ _ => exact absurd hx (List.not_mem_nil x)
    | other _ => exact absurd hx (List.not_mem_nil x)

/-- Completeness of the nested-`commands:` collector, by strong induction
on the size of the pair list: everything it returns is the non-empty
extraction of a reachable `commands:` block. -/
theorem collectNested_sound_aux :
    ∀ (n : Nat) (pairs : List (Option YNode × Option YNode))
      (x : List MaestroCommand), sizeOf pairs ≤ n →
      x ∈ collectNestedCommandSequencesFromMap pairs →
      ∃ items, CommandsBlockIn pairs items ∧
        x = extractCommandsFromSequence items ∧ x ≠ [] := by
  intro n
  induction n with
  | zero =>
    intro pairs x hsz hx
    cases pairs with
    | nil => simp [collectNestedCommandSequencesFromMap] at hx
    | cons hd rest =>
      exfalso
      simp at hsz
  | succ n ih =>
    intro pairs x hsz hx
    cases pairs with
    | nil => simp [collectNestedCommandSequencesFromMap] at hx
    | cons hd rest =>
      obtain ⟨key, value⟩ := hd
      rw [collectNested_cons] at hx
      rcases List.mem_append.mp hx with hx12 | hx3
      · rcases List.mem_append.mp hx12 with hxa | hxb
        · obtain ⟨kr, items, vr, hkey, hval, hxe, hne⟩ :=
            mem_commandsBlockAt key value x hxa
          subst hkey
          subst hval
          exact ⟨items,
            .here kr vr items (List.mem_cons_self _ _), hxe, hne⟩
        · cases value with
          | none => exact absurd hxb (List.not_mem_nil x)
          | some vn =>
            cases vn with
            | scalar _ _ => exact absurd hxb (List.not_mem_nil x)
            | seq _ _ => exact absurd hxb (List.not_mem_nil x)
            | other _ => exact absurd hxb (List.not_mem_nil x)
            | map inner r =>
              have hsz2 : sizeOf inner ≤ n := by
                simp at hsz
                omega
              obtain ⟨items, hin, hxe, hne⟩ := ih inner x hsz2 hxb
              exact ⟨items,
                .deeper key inner r items (List.mem_cons_self _ _) hin,
                hxe, hne⟩
      · have hsz2 : sizeOf rest ≤ n := by
          simp at hsz
          omega
        obtain ⟨items, hin, hxe, hne⟩ := ih rest x hsz2 hx3
        exact ⟨items, commandsBlockIn_cons _ hin, hxe, hne⟩

theorem collectNested_sound (pairs : List (Option YNode × Option YNode))
    (x : List MaestroCommand)
    (hx : x ∈ collectNestedCommandSequencesFromMap pairs) :
    ∃ items, CommandsBlockIn pairs items ∧
      x = extractCommandsFromSequence items ∧ x ≠ [] :=
  collectNested_sound_aux (sizeOf pairs) pairs x (le_refl _) hx

/-- Completeness at the driver level: every collected sequence is the
non-empty extraction of a list document root, or of a `commands:` block
reachable from a mapping document root through mapping values. -/
theorem collectCommandSequences_complete (documents : List YDocument) :
    ∀ s ∈ collectCommandSequences documents,
      ∃ doc ∈ documents,
        (∃ items r, doc.contents = some (.seq items r) ∧
          s = extractCommandsFromSequence items ∧ s ≠ []) ∨
        (∃ pairs r items, doc.contents = some (.map pairs r) ∧
          CommandsBlockIn pairs items ∧
          s = extractCommandsFromSequence items ∧ s ≠ []) := by
  intro s hs
  unfold collectCommandSequences at hs
  rw [List.mem_flatMap] at hs
  obtain ⟨doc, hdoc, hs⟩ := hs
  refine ⟨doc, hdoc, ?_⟩
  cases hroot : doc.contents with
  | none =>
    rw [hroot] at hs
    exact absurd hs (List.not_mem_nil s)
  | some root =>
    rw [hroot] at hs
    cases root with
    | scalar _ _ => exact absurd hs (List.not_mem_nil s)
    | other _ => exact absurd hs (List.not_mem_nil s)
    | seq items r =>
      left
      have hs2 : s ∈ (if (extractCommandsFromSequence items).length > 0
          then [extractCommandsFromSequence items] else []) := hs
      by_cases hlen : (extractCommandsFromSequence items).length > 0
      · rw [if_pos hlen, List.mem_singleton] at hs2
        refine ⟨items, r, rfl, hs2, ?_⟩
        rw [hs2]
        exact List.length_pos.mp hlen
      · rw [if_neg hlen] at hs2
        exact absurd hs2 (List.not_mem_nil s)
    | map pairs r =>
      right
      have hs2 : s ∈ collectNestedCommandSequencesFromMap pairs := hs
      obtain ⟨items, hin, hse, hne⟩ := collectNested_sound pairs s hs2
      exact ⟨pairs, r, items, rfl, hin, hse, hne⟩

/-- The only `commands:` block reachable from `c1ndoc`'s root pairs is the
outer one: its single pair's value is a sequence, so the recursion has no
mapping value to descend into, and the inner block under the sequence item
is unreachable. -/
theorem c1n_only_outer_block :
    ∀ items, CommandsBlockIn c1nRootPairs items → items = [c1nItem] := by
  intro items hin
  cases hin with
  | here kr vr items hmem =>
    rw [show c1nRootPairs =
      [(some (.scalar (.str "commands") (some (0, 8))),
        some (.seq [c1nItem] (some (12, 58))))] from rfl,
      List.mem_singleton] at hmem
    simp at hmem
    exact hmem.2.1
  | deeper key inner r items hmem hin2 =>
    rw [show c1nRootPairs =
      [(some (.scalar (.str "commands") (some (0, 8))),
        some (.seq [c1nItem] (some (12, 58))))] from rfl,
      List.mem_singleton] at hmem
    simp at hmem

/-- C1 counterexample: two concrete documents refute the claim.  In
`[c1doc]` — a top-level list whose single `conditional` command carries a
non-empty nested `commands:` block holding `tapOn` — exactly one sequence
is collected and no collected sequence contains a `tapOn` command.  In
`[c1ndoc]` — a `commands:` block one of whose commands carries another,
non-empty `commands:` block holding `tapOn` — no collected sequence
contains a `tapOn` command either: the block nested inside another
commands block is also undiscovered. -/
theorem nested_commands_discovery_counterexample :
    ((extractCommandsFromSequence
      [some (.scalar (.str "tapOn") (some (37, 42)))]).length = 1 ∧
     (collectCommandSequences [c1doc]).length = 1 ∧
     (∀ s ∈ collectCommandSequences [c1doc], ∀ c ∈ s,
       c.name ≠ "tapOn")) ∧
    ((extractCommandsFromSequence c1nInnerItems).length = 1 ∧
     (∀ s ∈ collectCommandSequences [c1ndoc], ∀ c ∈ s,
       c.name ≠ "tapOn")) := by
  refine ⟨⟨by decide, by decide, by decide⟩, by decide, ?_⟩
  intro s hs c hc
  obtain ⟨doc, hdoc, hcase⟩ :=
    collectCommandSequences_complete [c1ndoc] s hs
  rw [List.mem_singleton] at hdoc
  subst hdoc
  rcases hcase with ⟨items, r, hroot, hse, hne⟩ |
    ⟨pairs, r, items, hroot, hin, hse, hne⟩
  · rw [show c1ndoc.contents =
      some (.map c1nRootPairs (some (0, 58))) from rfl] at hroot
    injection hroot with hroot
    injection hroot
  · rw [show c1ndoc.contents =
      some (.map c1nRootPairs (some (0, 58))) from rfl] at hroot
    injection hroot with hroot
    injection hroot with h1 h2
    subst h1
    have hitems := c1n_only_outer_block items hin
    subst hitems
    subst hse
    have hcval : c.name = "conditional" := by
      rw [show extractCommandsFromSequence [c1nItem] =
        [⟨"conditional",
          some (.scalar (.str "conditional") (some (14, 25))),
          some (.map
            [(some (.scalar (.str "commands") (some (33, 41))),
              some (.seq c1nInnerItems (some (51, 58))))]
            (some (33, 58)))⟩] from by with_unfolding_all rfl] at hc
      rw [List.mem_singleton] at hc
      rw [hc]
    rw [hcval]
    decide

/-- C1 amended: a sequence is discovered if and only if it is the
non-empty extraction of a document root that is a list, or the non-empty
extraction of a `commands:` block reachable from a mapping document root
through a chain of mapping values (`CommandsBlockIn`).  In particular,
since `CommandsBlockIn` never descends into sequence items, a commands
block under a command inside a top-level list, or nested inside another
commands block, is never discovered (see the counterexample). -/
theorem nested_commands_discovery_amended (documents : List YDocument) :
    ∀ s, s ∈ collectCommandSequences documents ↔
      ∃ doc ∈ documents,
        (∃ items r, doc.contents = some (.seq items r) ∧
          s = extractCommandsFromSequence items ∧ s ≠ []) ∨
        (∃ pairs r items, doc.contents = some (.map pairs r) ∧
          CommandsBlockIn pairs items ∧
          s = extractCommandsFromSequence items ∧ s ≠ []) := by
  intro s
  constructor
  · exact collectCommandSequences_complete documents s
  · rintro ⟨doc, hdoc, hcase⟩
    rcases hcase with ⟨items, r, hroot, hse, hne⟩ |
      ⟨pairs, r, items, hroot, hin, hse, hne⟩
    · subst hse
      unfold collectCommandSequences
      rw [List.mem_flatMap]
      refine ⟨doc, hdoc, ?_⟩
      rw [hroot]
      show extractCommandsFromSequence items ∈
        (if (extractCommandsFromSequence items).length > 0
         then [extractCommandsFromSequence items] else [])
      rw [if_pos (List.length_pos.mpr hne)]
      exact List.mem_singleton.mpr rfl
    · subst hse
      unfold collectCommandSequences
      rw [List.mem_flatMap]
      refine ⟨doc, hdoc, ?_⟩
      rw [hroot]
      show extractCommandsFromSequence items ∈
        collectNestedCommandSequencesFromMap pairs
      exact commandsBlockIn_collected hin hne

/-- Witness for the amended C1: in `[c1mdoc]` — a mapping root reaching a
`commands:` block through a mapping value — the nested `[tapOn]` sequence
is discovered. -/
theorem nested_commands_discovery_amended_witness :
    extractCommandsFromSequence
        [some (.scalar (.str "tapOn") (some (22, 27)))] ∈
      collectCommandSequences [c1mdoc] :=
  ((nested_commands_discovery_amended [c1mdoc])
      (extractCommandsFromSequence
        [some (.scalar (.str "tapOn") (some (22, 27)))])).mpr
    ⟨c1mdoc, List.mem_singleton.mpr rfl,
      Or.inr
        ⟨[(some (.scalar (.str "when") (some (0, 4))),
            some (.map
              [(some (.scalar (.str "commands") (some (8, 16))),
                some (.seq [some (.scalar (.str "tapOn") (some (22, 27)))]
                  (some (20, 27))))]
              (some (8, 27))))],
          (some (0, 27)),
          [some (.scalar (.str "tapOn") (some (22, 27)))],
          rfl,
          CommandsBlockIn.deeper (some (.scalar (.str "when") (some (0, 4))))
            [(some (.scalar (.str "commands") (some (8, 16))),
              some (.seq [some (.scalar (.str "tapOn") (some (22, 27)))]
                (some (20, 27))))]
            (some (8, 27))
            [some (.scalar (.str "tapOn") (some (22, 27)))]
            (List.mem_singleton.mpr rfl)
            (CommandsBlockIn.here (some (8, 16)) (some (20, 27))
              [some (.scalar (.str "tapOn") (some (22, 27)))]
              (List.mem_singleton.mpr rfl)),
          rfl,
          List.length_pos.mp (by decide)⟩⟩


/-! ### C8: the position index -/

theorem lineFeedOffsets_mem (cs : List Char) :
    ∀ (i n : Nat), n ∈ lineFeedOffsets cs i ↔
      ∃ k, k < cs.length ∧ cs[k]? = some '\n' ∧ n = i + k + 1 := by
  induction cs with
  | nil => intro i n; simp [lineFeedOffsets]
  | cons c rest ih =>
    intro i n
    by_cases hc : c = '\n'
    · simp only [lineFeedOffsets, if_pos hc, List.mem_cons]
      constructor
      · intro h
        rcases h with h1 | hmem
        · exact ⟨0, by simp, by simp [hc], by omega⟩
        · obtain ⟨k, hk, hkc, hn⟩ := (ih (i + 1) n).mp hmem
          exact ⟨k + 1, by simpa using hk, by simpa using hkc, by omega⟩
      · rintro ⟨k, hk, hkc, hn⟩
        cases k with
        | zero => left; omega
        | succ k' =>
          right
          exact (ih (i + 1) n).mpr
            ⟨k', by simpa using hk, by simpa using hkc, by omega⟩
    · simp only [lineFeedOffsets, if_neg hc]
      rw [ih (i + 1) n]
      constructor
      · rintro ⟨k, hk, hkc, hn⟩
        exact ⟨k + 1, by simpa using hk, by simpa using hkc, by omega⟩
      · rintro ⟨k, hk, hkc, hn⟩
        cases k with
        | zero =>
          rw [List.getElem?_cons_zero] at hkc
          injection hkc with hkc
          exact absurd hkc hc
        | succ k' =>
          exact ⟨k', by simpa using hk, by simpa using hkc, by omega⟩

theorem computeLineOffsets_mem (text : String) (n : Nat) :
    n ∈ computeLineOffsets text ↔
      n = 0 ∨ ∃ i, i < text.length ∧ text.data[i]? = some '\n' ∧
        n = i + 1 := by
  unfold computeLineOffsets
  rw [List.mem_cons, lineFeedOffsets_mem]
  constructor
  · rintro (rfl | ⟨k, hk, hkc, rfl⟩)
    · left; rfl
    · right; exact ⟨k, hk, hkc, by omega⟩
  · rintro (rfl | ⟨i, hi, hic, rfl⟩)
    · left; rfl
    · right; exact ⟨i, hi, hic, by omega⟩

theorem lineFeedOffsets_sorted (cs : List Char) :
    ∀ i, (lineFeedOffsets cs i).Pairwise (· < ·) ∧
      ∀ n ∈ lineFeedOffsets cs i, i < n := by
  induction cs with
  | nil => intro i; simp [lineFeedOffsets]
  | cons c rest ih =>
    intro i
    by_cases hc : c = '\n'
    · simp only [lineFeedOffsets, if_pos hc]
      refine ⟨List.pairwise_cons.mpr ⟨?_, (ih (i + 1)).1⟩, ?_⟩
      · intro n hn
        exact (ih (i + 1)).2 n hn
      · intro n hn
        rcases List.mem_cons.mp hn with rfl | hn'
        · omega
        · have := (ih (i + 1)).2 n hn'
          omega
    · simp only [lineFeedOffsets, if_neg hc]
      refine ⟨(ih (i + 1)).1, ?_⟩
      intro n hn
      have := (ih (i + 1)).2 n hn
      omega

theorem computeLineOffsets_pairwise (text : String) :
    (computeLineOffsets text).Pairwise (· < ·) := by
  unfold computeLineOffsets
  refine List.pairwise_cons.mpr ⟨?_, (lineFeedOffsets_sorted text.data 0).1⟩
  intro n hn
  exact (lineFeedOffsets_sorted text.data 0).2 n hn

theorem computeLineOffsets_le (text : String) :
    ∀ n ∈ computeLineOffsets text, n ≤ text.length := by
  intro n hn
  rcases (computeLineOffsets_mem text n).mp hn with rfl | ⟨i, hi, -, rfl⟩
  · omega
  · omega

theorem pairwise_getD_lt {offs : List Nat} (hp : offs.Pairwise (· < ·))
    {a b : Nat} (hab : a < b) (hb : b < offs.length) :
    offs.getD a 0 < offs.getD b 0 := by
  rw [List.getD_eq_getElem _ _ (lt_trans hab hb),
    List.getD_eq_getElem _ _ hb]
  exact List.pairwise_iff_getElem.mp hp a b _ _ hab

theorem pairwise_getD_le {offs : List Nat} (hp : offs.Pairwise (· < ·))
    {a b : Nat} (hab : a ≤ b) (hb : b < offs.length) :
    offs.getD a 0 ≤ offs.getD b 0 := by
  rcases Nat.lt_or_ge a b with h | h
  · exact le_of_lt (pairwise_getD_lt hp h hb)
  · have hba : a = b := by omega
    subst hba
    exact le_refl _

theorem otpLoop_eq (offs : List Nat) (hp : offs.Pairwise (· < ·))
    (offset j : Nat) (hj : j < offs.length)
    (hjle : offs.getD j 0 ≤ offset)
    (hnext : j + 1 = offs.length ∨ offset < offs.getD (j + 1) 0) :
    ∀ fuel low high, low ≤ j → j ≤ high → high < offs.length →
      high + 1 - low ≤ fuel →
      otpLoop offset offs low high fuel =
        ⟨j, offset - offs.getD j 0⟩ := by
  intro fuel
  induction fuel with
  | zero =>
    intro low high hlj hjh hhl hfuel
    omega
  | succ fuel ih =>
    intro low high hlj hjh hhl hfuel
    have hlh : low ≤ high := le_trans hlj hjh
    simp only [otpLoop]
    rw [if_pos hlh]
    have hmid1 : low ≤ (low + high) / 2 := by omega
    have hmid2 : (low + high) / 2 ≤ high := by omega
    by_cases hlt : offset < offs.getD ((low + high) / 2) 0
    · rw [if_pos hlt]
      have hjm : j < (low + high) / 2 := by
        by_contra hge
        push_neg at hge
        exact absurd (le_trans (pairwise_getD_le hp hge hj) hjle)
          (not_le.mpr hlt)
      exact ih low ((low + high) / 2 - 1) hlj (by omega) (by omega)
        (by omega)
    · rw [if_neg hlt]
      by_cases hc2 : (low + high) / 2 + 1 < offs.length ∧
          offs.getD ((low + high) / 2 + 1) 0 ≤ offset
      · rw [if_pos hc2]
        have hjm : (low + high) / 2 + 1 ≤ j := by
          by_contra hgt
          push_neg at hgt
          rcases hnext with heq | hlt2
          · omega
          · have := pairwise_getD_le hp
              (show j + 1 ≤ (low + high) / 2 + 1 by omega) hc2.1
            omega
        exact ih ((low + high) / 2 + 1) high hjm hjh hhl (by omega)
      · rw [if_neg hc2]
        have hmj : (low + high) / 2 = j := by
          rcases Nat.lt_trichotomy ((low + high) / 2) j with h | h | h
          · exfalso
            exact hc2 ⟨by omega,
              le_trans (pairwise_getD_le hp (by omega) hj) hjle⟩
          · exact h
          · exfalso
            rcases hnext with heq | hlt2
            · omega
            · have := pairwise_getD_le hp
                (show j + 1 ≤ (low + high) / 2 by omega) (by omega)
              omega
        rw [hmj]

theorem offsetToPosition_spec (offs : List Nat)
    (hp : offs.Pairwise (· < ·)) (hlen : 0 < offs.length)
    (h0 : offs.getD 0 0 = 0) (offset : Nat) :
    ∃ j, j < offs.length ∧ offs.getD j 0 ≤ offset ∧
      (∀ k, k < offs.length → offs.getD k 0 ≤ offset → k ≤ j) ∧
      offsetToPosition offset offs = ⟨j, offset - offs.getD j 0⟩ := by
  classical
  have hS0 : 0 ∈ (Finset.range offs.length).filter
      (fun k => offs.getD k 0 ≤ offset) := by
    rw [Finset.mem_filter, Finset.mem_range]
    exact ⟨hlen, by rw [h0]; omega⟩
  have hSne : ((Finset.range offs.length).filter
      (fun k => offs.getD k 0 ≤ offset)).Nonempty := ⟨0, hS0⟩
  obtain ⟨hjlt, hjle⟩ : _ ∧ _ := by
    have := Finset.max'_mem _ hSne
    rw [Finset.mem_filter, Finset.mem_range] at this
    exact this
  have hgreatest : ∀ k, k < offs.length → offs.getD k 0 ≤ offset →
      k ≤ ((Finset.range offs.length).filter
        (fun k => offs.getD k 0 ≤ offset)).max' hSne := by
    intro k hk hkle
    refine Finset.le_max' _ k ?_
    rw [Finset.mem_filter, Finset.mem_range]
    exact ⟨hk, hkle⟩
  refine ⟨_, hjlt, hjle, hgreatest, ?_⟩
  unfold offsetToPosition
  refine otpLoop_eq offs hp offset _ hjlt hjle ?_ (offs.length + 1) 0
    (offs.length - 1) (by omega) (by omega) (by omega) (by omega)
  rcases Nat.eq_or_lt_of_le (Nat.succ_le_of_lt hjlt) with heq | hlt
  · left
    exact heq
  · right
    by_contra hge
    push_neg at hge
    have := hgreatest _ hlt hge
    omega

/-- C8: the position index.  (1) The line-start offsets are exactly offset
0 plus every offset immediately following a line feed.  (2) For every
offset, `offsetToPosition` returns `(line, column)` where `line` is the
greatest index whose line start is ≤ the offset and `column` is the offset
minus that line's start.  (3) Offsets at or beyond the text end resolve to
the last line.  (4) Empty text resolves offset 0 to line 0, column 0.
(5) An offset exactly at a line boundary resolves to column 0 (of the
following line, by (2) its line's start equals the offset). -/
theorem position_index_characterization (text : String) :
    (∀ n, n ∈ computeLineOffsets text ↔
      (n = 0 ∨ ∃ i, i < text.length ∧ text.data[i]? = some '\n' ∧
        n = i + 1)) ∧
    (∀ offset : Nat, ∃ j, j < (computeLineOffsets text).length ∧
      (computeLineOffsets text).getD j 0 ≤ offset ∧
      (∀ k, k < (computeLineOffsets text).length →
        (computeLineOffsets text).getD k 0 ≤ offset → k ≤ j) ∧
      offsetToPosition offset (computeLineOffsets text) =
        ⟨j, offset - (computeLineOffsets text).getD j 0⟩) ∧
    (∀ offset : Nat, text.length ≤ offset →
      (offsetToPosition offset (computeLineOffsets text)).line =
        (computeLineOffsets text).length - 1) ∧
    offsetToPosition 0 (computeLineOffsets "") = ⟨0, 0⟩ ∧
    (∀ i, i < text.length → text.data[i]? = some '\n' →
      (offsetToPosition (i + 1) (computeLineOffsets text)).character
        = 0) := by
  have hp := computeLineOffsets_pairwise text
  have hlen : 0 < (computeLineOffsets text).length := by
    unfold computeLineOffsets
    simp
  have h0 : (computeLineOffsets text).getD 0 0 = 0 := rfl
  refine ⟨computeLineOffsets_mem text, fun offset =>
    offsetToPosition_spec _ hp hlen h0 offset, ?_, by decide, ?_⟩
  · intro offset hoff
    obtain ⟨j, hjlt, hjle, hgr, heq⟩ :=
      offsetToPosition_spec _ hp hlen h0 offset
    have hlast : (computeLineOffsets text).length - 1 ≤ j := by
      refine hgr _ (by omega) ?_
      have hmem : (computeLineOffsets text).getD
          ((computeLineOffsets text).length - 1) 0 ∈
            computeLineOffsets text := by
        rw [List.getD_eq_getElem _ _ (by omega)]
        exact List.getElem_mem _
      have := computeLineOffsets_le text _ hmem
      omega
    rw [heq]
    simp only
    omega
  · intro i hi hic
    have hmem : (i + 1) ∈ computeLineOffsets text :=
      (computeLineOffsets_mem text (i + 1)).mpr
        (Or.inr ⟨i, hi, hic, rfl⟩)
    obtain ⟨t, ht⟩ := List.mem_iff_getElem?.mp hmem
    obtain ⟨htlt, htval⟩ := List.getElem?_eq_some_iff.mp ht
    obtain ⟨j, hjlt, hjle, hgr, heq⟩ :=
      offsetToPosition_spec _ hp hlen h0 (i + 1)
    have htj : t ≤ j := by
      refine hgr t htlt ?_
      rw [List.getD_eq_getElem _ _ htlt]
      omega
    have hle2 : (computeLineOffsets text).getD t 0 ≤
        (computeLineOffsets text).getD j 0 := pairwise_getD_le hp htj hjlt
    rw [List.getD_eq_getElem _ _ htlt] at hle2
    rw [heq]
    simp only
    omega

/-- Witness for C8 at the concrete text `"ab\ncd"` and offset 7 (beyond
the text end): the offset resolves to the last line. -/
theorem position_index_characterization_witness :
    (offsetToPosition 7 (computeLineOffsets "ab\ncd")).line =
      (computeLineOffsets "ab\ncd").length - 1 :=
  (position_index_characterization "ab\ncd").2.2.1 7 (by decide)

end Maestro
